import Mathlib

/-!
GrokRecipeSnap — verification of the response-parsing core.

Shallow embedding of the free-text recipe/article response parsing pipeline of
the GrokRecipeSnap repository:

* `cleanMarkdown`, `extractTitle`, `extractIngredients`, `extractInstructions`,
  `extractMacros`, `extractFallbackInstructions`, `parseRecipeFromResponse`
  from the food-analysis utility (src/unnamed/part_003);
* `cleanFormatting` and the `safeRecipe` assembly from src/src/pages/Index.tsx;
* `processedInstructions` from src/src/components/RecipeCard.tsx;
* the article JSON parsing and required-field check of
  `_generateArticleForTopic` from src/src/utils/articleService.ts.

Strings are embedded as `List Char` (`Str`); JavaScript string lengths are
UTF-16 code-unit counts, which agree with code-point counts on all inputs used
here.  JavaScript regular-expression `replace`/`match`/`split` calls are
embedded as recursive scanners with the same leftmost-match, greedy/lazy and
global-continuation semantics on the fragments the source exercises; functions
whose recursion is not structural take an explicit fuel argument initialised
with the input length, so that every definition evaluates by `decide`/`rfl`.
-/

set_option maxHeartbeats 1000000

/-- Strings of the embedded program. -/
abbrev Str := List Char

/-- The JavaScript regex class `\s` (on the whitespace characters occurring in
the repository's inputs: space, tab, newline, carriage return, vertical tab,
form feed). -/
def isWsC (c : Char) : Bool :=
  c == ' ' || c == '\t' || c == '\n' || c == '\r' || c == '\x0b' || c == '\x0c'

/-- Line terminators (`[\n\r]` in the source's regexes; also the characters the
dot `.` of a non-dotall JavaScript regex refuses to match). -/
def isNlC (c : Char) : Bool := c == '\n' || c == '\r'

/-- Case-insensitive prefix test (the `i` flag of the source's regexes). -/
def ciPref : Str → Str → Bool
  | [], _ => true
  | _ :: _, [] => false
  | p :: ps, c :: cs => (p.toLower == c.toLower) && ciPref ps cs

/-- JavaScript `a || b` on strings: the empty string is falsy. -/
def jsOr (a b : Str) : Str := if a.isEmpty then b else a

/-- Drop trailing whitespace (second half of JavaScript `trim`). -/
def dropTrailWs (l : Str) : Str := (l.reverse.dropWhile isWsC).reverse

/-- JavaScript `String.prototype.trim`. -/
def trimL (l : Str) : Str := dropTrailWs (l.dropWhile isWsC)

/-- Leftmost split at the first position where `p` holds of the remaining
suffix: returns the part before the match and the suffix from the match on.
This is the engine behind every unanchored leftmost regex search below. -/
def findSplitP (p : Str → Bool) : Str → Option (Str × Str)
  | [] => none
  | c :: cs =>
    if p (c :: cs) then some ([], c :: cs)
    else (findSplitP p cs).map (fun ab => (c :: ab.1, ab.2))

/-- JavaScript `String.prototype.includes` (substring occurrence). -/
def includesL (l pat : Str) : Bool :=
  if pat.isEmpty then true else (findSplitP (fun t => pat.isPrefixOf t) l).isSome

/-- JavaScript global literal replace `s.replace(/pat/g, rep)`: scan left to
right, replace each non-overlapping occurrence, continue after the match.
Fuel-structural; the wrapper `replaceAll` passes the input length. -/
def replaceAllF (pat rep : Str) : Nat → Str → Str
  | 0, l => l
  | _ + 1, [] => []
  | fuel + 1, c :: cs =>
    if pat.isPrefixOf (c :: cs) then rep ++ replaceAllF pat rep fuel ((c :: cs).drop pat.length)
    else c :: replaceAllF pat rep fuel cs

/-- Wrapper for `replaceAllF` with enough fuel for the whole input. -/
def replaceAll (pat rep l : Str) : Str := replaceAllF pat rep l.length l

/-- Whether a run of `k` leading `#` characters is accepted by the heading
regex: `#{1,6}` for `cleanMarkdown` (`maxHash = some 6`), `#+` for
`cleanFormatting` (`maxHash = none`). -/
def headingOkCount (maxHash : Option Nat) (k : Nat) : Bool :=
  1 ≤ k && (match maxHash with | none => true | some m => k ≤ m)

/-- JavaScript `s.replace(/^#{1,6}\s+/gm, '')` (resp. `/^#+\s+/gm`): at every
line start, a run of `#` of accepted length followed by at least one whitespace
character (greedily extended, across line breaks) is removed; the flag
`atStart` tracks whether the current position is a line start, which after a
removed match depends on the last whitespace character consumed. -/
def stripHeadingsF (maxHash : Option Nat) : Nat → Bool → Str → Str
  | 0, _, l => l
  | _ + 1, _, [] => []
  | fuel + 1, atStart, c :: cs =>
    if atStart then
      let k := ((c :: cs).takeWhile (· == '#')).length
      let rest := (c :: cs).drop k
      if headingOkCount maxHash k && rest.head?.any isWsC then
        stripHeadingsF maxHash fuel ((rest.takeWhile isWsC).getLast?.any isNlC)
          (rest.dropWhile isWsC)
      else c :: stripHeadingsF maxHash fuel (isNlC c) cs
    else c :: stripHeadingsF maxHash fuel (isNlC c) cs

/-- JavaScript `s.replace(/\[([^\]]+)\]\([^)]+\)/g, '$1')`: a markdown link is
rewritten to its label; on any mismatch the scan resumes one character after
the opening bracket, as the regex engine does. -/
def stripLinksF : Nat → Str → Str
  | 0, l => l
  | _ + 1, [] => []
  | fuel + 1, c :: cs =>
    if c == '[' then
      let lbl := cs.takeWhile (· != ']')
      match cs.drop lbl.length with
      | ']' :: '(' :: r2 =>
        let url := r2.takeWhile (· != ')')
        match r2.drop url.length with
        | ')' :: r3 =>
          if lbl.isEmpty || url.isEmpty then c :: stripLinksF fuel cs
          else lbl ++ stripLinksF fuel r3
        | _ => c :: stripLinksF fuel cs
      | _ => c :: stripLinksF fuel cs
    else c :: stripLinksF fuel cs

/-- JavaScript `s.replace(/\s{2,}/g, ' ')`: a run of two or more whitespace
characters becomes a single space; a lone whitespace character is kept as is.
The `skip` flag is true while inside an already-replaced run. -/
def collapse2 : Bool → Str → Str
  | _, [] => []
  | skip, c :: cs =>
    if isWsC c then
      if skip then collapse2 true cs
      else if cs.head?.any isWsC then ' ' :: collapse2 true cs
      else c :: collapse2 false cs
    else c :: collapse2 false cs

/-- JavaScript `s.replace(/\s+/g, ' ')`: every maximal whitespace run becomes
a single space. -/
def collapseAll : Bool → Str → Str
  | _, [] => []
  | skip, c :: cs =>
    if isWsC c then
      if skip then collapseAll true cs else ' ' :: collapseAll true cs
    else c :: collapseAll false cs

/-- JavaScript `s.replace(/\s+:/g, ':')`: a whitespace run directly followed by
a colon is removed together with nothing else (the colon is kept). -/
def wsColonF : Nat → Str → Str
  | 0, l => l
  | _ + 1, [] => []
  | fuel + 1, c :: cs =>
    if isWsC c then
      match (c :: cs).dropWhile isWsC with
      | ':' :: rest => ':' :: wsColonF fuel rest
      | _ => c :: wsColonF fuel cs
    else c :: wsColonF fuel cs

/-- JavaScript `s.replace(/:\s+/g, ': ')`: a colon followed by a whitespace run
becomes a colon and a single space. -/
def colonWsF : Nat → Str → Str
  | 0, l => l
  | _ + 1, [] => []
  | fuel + 1, c :: cs =>
    if c == ':' && cs.head?.any isWsC then
      ':' :: ' ' :: colonWsF fuel (cs.dropWhile isWsC)
    else c :: colonWsF fuel cs

/-- JavaScript `s.replace(/(\d+)\s*\.\s+/g, '$1. ')`: a digit run, optional
whitespace, a period and at least one whitespace character are normalised to
`digits`, `.` and one space.  On a failed attempt the scan resumes after the
digit run (no shorter digit run can succeed at an inner position). -/
def fixNumF : Nat → Str → Str
  | 0, l => l
  | _ + 1, [] => []
  | fuel + 1, c :: cs =>
    if c.isDigit then
      let ds := (c :: cs).takeWhile Char.isDigit
      let r1 := (c :: cs).dropWhile Char.isDigit
      match r1.dropWhile isWsC with
      | '.' :: r3 =>
        if r3.head?.any isWsC then ds ++ '.' :: ' ' :: fixNumF fuel (r3.dropWhile isWsC)
        else ds ++ fixNumF fuel r1
      | _ => ds ++ fixNumF fuel r1
    else c :: fixNumF fuel cs

/-- The `cleanMarkdown` function of src/unnamed/part_003 lines 35–65: the
chain of `replace` calls in source order (emphasis markers, headings, links,
backticks, whitespace runs of length at least two, spacing around colons, the
four HTML entities, numbered-list spacing, all whitespace runs, trim), after
the falsy-input guard. -/
def cleanMarkdown (l : Str) : Str :=
  if l.isEmpty then [] else
  let s1 := replaceAll ['*', '*'] [] l
  let s2 := replaceAll ['*'] [] s1
  let s3 := replaceAll ['_', '_'] [] s2
  let s4 := replaceAll ['_'] [] s3
  let s5 := stripHeadingsF (some 6) s4.length true s4
  let s6 := stripLinksF s5.length s5
  let s7 := replaceAll ['`'] [] s6
  let s8 := collapse2 false s7
  let s9 := wsColonF s8.length s8
  let s10 := colonWsF s9.length s9
  let s11 := replaceAll ['&', 'a', 'm', 'p', ';'] ['&'] s10
  let s12 := replaceAll ['&', 'l', 't', ';'] ['<'] s11
  let s13 := replaceAll ['&', 'g', 't', ';'] ['>'] s12
  let s14 := replaceAll ['&', 'q', 'u', 'o', 't', ';'] ['"'] s13
  let s15 := fixNumF s14.length s14
  let s16 := collapseAll false s15
  trimL s16

/-- Core replace chain of `cleanFormatting` (src/src/pages/Index.tsx lines
38–44): bold and italic markers, unbounded markdown headings at line starts,
underscore markers, then trim. -/
def cleanFormattingCore (l : Str) : Str :=
  let s1 := replaceAll ['*', '*'] [] l
  let s2 := replaceAll ['*'] [] s1
  let s3 := stripHeadingsF none s2.length true s2
  let s4 := replaceAll ['_', '_'] [] s3
  let s5 := replaceAll ['_'] [] s4
  trimL s5

/-- The section-header sentinel prefix preserved by `cleanFormatting`. -/
def headerMarker : Str := "##HEADER## ".data

/-- The `cleanFormatting` function of src/src/pages/Index.tsx lines 23–45:
falsy guard, special case keeping a leading `##HEADER## ` marker untouched,
otherwise the replace chain. -/
def cleanFormatting (l : Str) : Str :=
  if l.isEmpty then [] else
  if headerMarker.isPrefixOf l then
    headerMarker ++ cleanFormattingCore (l.drop headerMarker.length)
  else cleanFormattingCore l

/-- The part `[:\-]*` of the title label patterns: a greedy run of colons and
dashes. -/
def dropColonDash (l : Str) : Str := l.dropWhile (fun c => c == ':' || c == '-')

/-- JavaScript `\s*(.*?)[\n\r]` without the dotall flag, starting at `r2`:
the greedy whitespace run is consumed first; the lazy dot capture then runs to
the first line terminator, and if none is reachable the whitespace run is
backtracked, succeeding with an empty capture exactly when the run itself
contains a line terminator. -/
def lazyDotCapture (r2 : Str) : Option Str :=
  let w := r2.takeWhile isWsC
  let r3 := r2.dropWhile isWsC
  if r3.any isNlC then some (r3.takeWhile (fun c => !(isNlC c)))
  else if w.any isNlC then some []
  else none

/-- Attempt of the pattern `Title[:\-]*\s*(.*?)[\n\r]` (case-insensitive) at
the current position. -/
def tryTitleLabel (l : Str) : Option Str :=
  if ciPref "title".data l then lazyDotCapture (dropColonDash (l.drop 5)) else none

/-- First match of `/Title[:\-]*\s*(.*?)[\n\r]/im` anywhere in the text. -/
def matchTitleLabelAnywhere (text : Str) : Option Str :=
  (findSplitP (fun t => (tryTitleLabel t).isSome) text).bind (fun ab => tryTitleLabel ab.2)

/-- Scan the positions after each line terminator (the `m`-flag `^` anchors
other than the start of the string) with an anchored matcher `f`. -/
def findLineStartGo (f : Str → Option Str) : Str → Option Str
  | [] => none
  | c :: cs =>
    if isNlC c then
      match f cs with
      | some r => some r
      | none => findLineStartGo f cs
    else findLineStartGo f cs

/-- First match of a line-start-anchored pattern: the start of the string,
then after every line terminator. -/
def findLineStart (f : Str → Option Str) (text : Str) : Option Str :=
  match f text with
  | some r => some r
  | none => findLineStartGo f text

/-- Anchored attempt of `^#\s*Title[:\-]*\s*(.*?)[\n\r]` (flags `im`). -/
def tryHashTitle (l : Str) : Option Str :=
  match l with
  | '#' :: r =>
    let r2 := r.dropWhile isWsC
    if ciPref "title".data r2 then lazyDotCapture (dropColonDash (r2.drop 5)) else none
  | _ => none

/-- Whether the terminator `\*\*[\n\r]` of the bold title patterns matches at
the current position. -/
def starStarNlAt (t : Str) : Bool :=
  match t with
  | '*' :: '*' :: d :: _ => isNlC d
  | _ => false

/-- Lazy dot capture running to the first `**` that is followed by a line
terminator; fails when a line terminator is hit first. -/
def captureToStarStarNl (r3 : Str) : Option Str :=
  match findSplitP starStarNlAt r3 with
  | some bb => if bb.1.any isNlC then none else some bb.1
  | none => none

/-- Anchored attempt of `^\*\*Title[:\-]*\s*(.*?)\*\*[\n\r]` (flags `im`). -/
def tryBoldTitle (l : Str) : Option Str :=
  match l with
  | '*' :: '*' :: r =>
    if ciPref "title".data r then
      captureToStarStarNl ((dropColonDash (r.drop 5)).dropWhile isWsC)
    else none
  | _ => none

/-- Anchored attempt of `^#\s*(.*?)[\n\r]` (flag `m`). -/
def tryHashAny (l : Str) : Option Str :=
  match l with
  | '#' :: r => lazyDotCapture r
  | _ => none

/-- Anchored attempt of `^\*\*(.*?)\*\*[\n\r]` (flag `m`). -/
def tryBoldAny (l : Str) : Option Str :=
  match l with
  | '*' :: '*' :: r => captureToStarStarNl r
  | _ => none

/-- Attempt of `^(.*?)[\n\r]` without the `m` flag: anchored at the start of
the string only. -/
def tryFirstLine (l : Str) : Option Str :=
  if l.any isNlC then some (l.takeWhile (fun c => !(isNlC c))) else none

/-- The per-pattern acceptance test of `extractTitle`: a match whose trimmed
capture is non-empty returns the trimmed capture, otherwise the next pattern
is tried. -/
def titleCandidate : Option Str → Option Str
  | some cap => if (trimL cap).isEmpty then none else some (trimL cap)
  | none => none

/-- The `extractTitle` function of src/unnamed/part_003 lines 221–251: the
three label-bearing patterns in priority order, then the three positional
patterns, each accepted only when its trimmed capture is non-empty. -/
def extractTitle (text : Str) : Option Str :=
  titleCandidate (matchTitleLabelAnywhere text) <|>
  titleCandidate (findLineStart tryHashTitle text) <|>
  titleCandidate (findLineStart tryBoldTitle text) <|>
  titleCandidate (findLineStart tryHashAny text) <|>
  titleCandidate (findLineStart tryBoldAny text) <|>
  titleCandidate (tryFirstLine text)

/-- The separator `(?::|[\n\r]+)` after a section keyword: a colon, or a
greedy run of line terminators. -/
def sectionSep (r : Str) : Option Str :=
  match r with
  | ':' :: body => some body
  | _ => if r.head?.any isNlC then some (r.dropWhile isNlC) else none

/-- Anchored attempt of the ingredients-section header
`(?:Ingredients|INGREDIENTS)(?::|[\n\r]+)`; returns the text after the
separator. -/
def tryIngredientsHead (t : Str) : Option Str :=
  if ciPref "ingredients".data t then sectionSep (t.drop 11) else none

/-- The lookahead terminating the ingredients capture:
`(?=(?:Instructions|INSTRUCTIONS|Directions|DIRECTIONS|Preparation|Method|Steps|##|$))`
(case-insensitive). -/
def ingredientsLookahead (t : Str) : Bool :=
  ciPref "instructions".data t || ciPref "directions".data t ||
  ciPref "preparation".data t || ciPref "method".data t ||
  ciPref "steps".data t || ['#', '#'].isPrefixOf t

/-- Lazy capture up to the first position where the lookahead `p` holds, or
the whole text when it never does (the `$` alternative of the lookahead). -/
def captureToLookahead (p : Str → Bool) (body : Str) : Str :=
  match findSplitP p body with
  | some bb => bb.1
  | none => body

/-- Split on `/[\n\r]+/` (JavaScript `split` with a run of line terminators as
separator); the accumulator holds the current piece reversed. -/
def splitNlRunsAux : Str → Bool → Str → List Str
  | cur, _, [] => [cur.reverse]
  | cur, inSep, c :: cs =>
    if isNlC c then
      if inSep then splitNlRunsAux cur true cs
      else cur.reverse :: splitNlRunsAux [] true cs
    else splitNlRunsAux (c :: cur) false cs

/-- JavaScript `s.split(/[\n\r]+/)`. -/
def splitNlRuns (l : Str) : List Str := splitNlRunsAux [] false l

/-- The character class `[-*•\d+\.]` of the ingredient-line marker strip. -/
def isBulletClass (c : Char) : Bool :=
  c == '-' || c == '*' || c == '•' || c.isDigit || c == '+' || c == '.'

/-- JavaScript `line.replace(/^[-*•\d+\.]+\s*/, '')`: one anchored removal of
a non-empty marker-class run and following whitespace. -/
def stripLeadMarker (l : Str) : Str :=
  if l.head?.any isBulletClass then (l.dropWhile isBulletClass).dropWhile isWsC else l

/-- One bullet-line match `[-*•]\s*(.*?)[\n\r]` after the marker character:
returns the matched text after the marker and the remaining input, following
the greedy-whitespace/lazy-capture backtracking of the engine. -/
def bulletMatchExtent (r : Str) : Option (Str × Str) :=
  let w := r.takeWhile isWsC
  let r3 := r.dropWhile isWsC
  if r3.any isNlC then
    let cap := r3.takeWhile (fun c => !(isNlC c))
    some (w ++ cap ++ (r3.drop cap.length).take 1, (r3.drop cap.length).drop 1)
  else if w.any isNlC then
    let tailNoNl := w.reverse.takeWhile (fun c => !(isNlC c))
    some ((w.reverse.drop tailNoNl.length).reverse,
          (w.reverse.take tailNoNl.length).reverse ++ r3)
  else none

/-- All matches of `/^[-*•]\s*(.*?)[\n\r]/gm` in order (JavaScript
`text.match(...)` with the `g` flag returns the list of full match texts),
tracking line starts and resuming after each match. -/
def collectBullets : Nat → Bool → Str → List Str
  | 0, _, _ => []
  | _ + 1, _, [] => []
  | fuel + 1, atStart, c :: cs =>
    if atStart && (c == '-' || c == '*' || c == '•') then
      match bulletMatchExtent cs with
      | some er => (c :: er.1) :: collectBullets fuel (er.1.getLast?.any isNlC) er.2
      | none => collectBullets fuel (isNlC c) cs
    else collectBullets fuel (isNlC c) cs

/-- JavaScript `line.replace(/^[-*•]\s*/, '')`. -/
def stripBulletMarker (l : Str) : Str :=
  match l with
  | c :: r => if c == '-' || c == '*' || c == '•' then r.dropWhile isWsC else l
  | [] => []

/-- The bullet-point fallback of `extractIngredients` (lines 282–287): all
bullet lines anywhere in the text, marker-stripped, trimmed, blanks dropped;
an absent or empty match list yields the final empty result. -/
def bulletFallback (text : Str) : List Str :=
  let items := collectBullets text.length true text
  if items.isEmpty then [] else
  (items.map (fun line => trimL (stripBulletMarker line))).filter (fun l => !l.isEmpty)

/-- The `extractIngredients` function of src/unnamed/part_003 lines 270–290:
the block between an `Ingredients` header and the next known section header
(or end of text), split into lines with markers stripped, blanks and the
header line dropped; with the bullet-point fallback when the header is absent
or the captured block is empty (an empty capture is falsy in the source's
`ingredientsMatch[1]` test). -/
def extractIngredients (text : Str) : List Str :=
  match (findSplitP (fun t => (tryIngredientsHead t).isSome) text).bind
      (fun ab => tryIngredientsHead ab.2) with
  | some body0 =>
    let body := captureToLookahead ingredientsLookahead body0
    if body.isEmpty then bulletFallback text else
    ((splitNlRuns body).map (fun line => trimL (stripLeadMarker line))).filter
      (fun line => !line.isEmpty && !(ciPref "ingredients".data line))
  | none => bulletFallback text

/-- Split on `/\r?\n/` (JavaScript `split`; a lone carriage return is not a
separator). -/
def splitCrLfAux : Str → Str → List Str
  | cur, [] => [cur.reverse]
  | cur, '\r' :: '\n' :: cs => cur.reverse :: splitCrLfAux [] cs
  | cur, '\n' :: cs => cur.reverse :: splitCrLfAux [] cs
  | cur, c :: cs => splitCrLfAux (c :: cur) cs

/-- JavaScript `s.split(/\r?\n/)`. -/
def splitCrLf (l : Str) : List Str := splitCrLfAux [] l

/-- The segments delimited by the `m`-flag line anchors: a boundary at every
single line terminator. -/
def splitNlSingleAux : Str → Str → List Str
  | cur, [] => [cur.reverse]
  | cur, c :: cs =>
    if isNlC c then cur.reverse :: splitNlSingleAux [] cs
    else splitNlSingleAux (c :: cur) cs

/-- The anchor-delimited lines of a text (for `test` with `^...$` and `m`). -/
def splitNlSingle (l : Str) : List Str := splitNlSingleAux [] l

/-- Anchored attempt of the instructions-section header
`(?:Instructions|INSTRUCTIONS|Directions|DIRECTIONS|Preparation|Method|Steps)(?::|[\n\r]+)`;
the five keywords have distinct initial letters, so at most one alternative
can match at a position. -/
def tryInstructionsHead (t : Str) : Option Str :=
  if ciPref "instructions".data t then sectionSep (t.drop 12)
  else if ciPref "directions".data t then sectionSep (t.drop 10)
  else if ciPref "preparation".data t then sectionSep (t.drop 11)
  else if ciPref "method".data t then sectionSep (t.drop 6)
  else if ciPref "steps".data t then sectionSep (t.drop 5)
  else none

/-- The lookahead `(?=(?:##|Notes|Tips|$))` terminating the instructions
capture (case-insensitive). -/
def instructionsLookahead (t : Str) : Bool :=
  ['#', '#'].isPrefixOf t || ciPref "notes".data t || ciPref "tips".data t

/-- The metadata labels of
`/(Cooking Time|Cook Time|Total Time|Servings|Serves|Yield|Difficulty):/i`,
each with its trailing colon. -/
def metadataLabels : List Str :=
  ["cooking time:".data, "cook time:".data, "total time:".data, "servings:".data,
   "serves:".data, "yield:".data, "difficulty:".data]

/-- Whether a metadata label (with colon) matches at the current position. -/
def metadataAt (t : Str) : Bool := metadataLabels.any (fun k => ciPref k t)

/-- JavaScript `instructionText.split(metadataRegex)[0]`: the part before the
first metadata label, or the whole text when there is none. -/
def splitAtMetadata (l : Str) : Str := captureToLookahead metadataAt l

/-- The number of a digit run (JavaScript `parseInt(s, 10)` on an all-digit
string). -/
def natOfDigits (ds : Str) : Nat :=
  ds.foldl (fun acc c => 10 * acc + (c.toNat - '0'.toNat)) 0

/-- Whether one anchor-delimited line matches `^\s*\d+[\.\)]\s+.+$` (the
numbered-step test of `extractInstructions`, applied per line by the `gm`
flags): optional whitespace, digits, a period or parenthesis, at least one
whitespace character and at least one further character. -/
def lineIsNumberedStep (l : Str) : Bool :=
  let l1 := l.dropWhile isWsC
  let ds := l1.takeWhile Char.isDigit
  if ds.isEmpty then false else
  match l1.drop ds.length with
  | c :: r =>
    (c == '.' || c == ')') &&
      (let w := r.takeWhile isWsC
       !w.isEmpty && (!(r.drop w.length).isEmpty || w.length ≥ 2))
  | [] => false

/-- Whether any line of the block matches the numbered-step pattern
(`numberedStepsPattern.test(actualInstructionsText)`). -/
def hasNumberedSteps (t : Str) : Bool := (splitNlSingle t).any lineIsNumberedStep

/-- Match of `(\d+)[\.\)]\s+(.+)$` at the start of `l` (no `m` flag, so `$`
is the absolute end and the dot cannot cross a line terminator): returns the
parsed number and the second capture. -/
def numberMatchCore (l : Str) : Option (Nat × Str) :=
  let ds := l.takeWhile Char.isDigit
  if ds.isEmpty then none else
  match l.drop ds.length with
  | c :: r =>
    if c == '.' || c == ')' then
      let w := r.takeWhile isWsC
      let rest := r.drop w.length
      if w.isEmpty then none
      else if rest.any isNlC then none
      else if !rest.isEmpty then some (natOfDigits ds, rest)
      else if w.length ≥ 2 && !((w.getLast?.getD ' ') == '\n' || (w.getLast?.getD ' ') == '\r')
      then some (natOfDigits ds, [w.getLast?.getD ' '])
      else none
    else none
  | [] => none

/-- Match of `/^\s*(\d+)[\.\)]\s+(.+)$/` (the per-line test inside the
numbered branch of `extractInstructions`). -/
def numberMatchLead (l : Str) : Option (Nat × Str) := numberMatchCore (l.dropWhile isWsC)

/-- Append a continuation line to the last collected step (source:
`steps[steps.length - 1] += " " + line`). -/
def appendToLast (steps : List Str) (line : Str) : List Str :=
  steps.dropLast ++ [(steps.getLastD []) ++ ' ' :: line]

/-- The numbered branch of `extractInstructions` (lines 317–341): a numbered
line starts a new step (kept whole, number included); any other line is
space-joined to the previous step, or starts a new step when there is none. -/
def buildNumberedSteps (lines : List Str) : List Str :=
  lines.foldl (fun steps line =>
    if (numberMatchLead line).isSome then steps ++ [line]
    else if !steps.isEmpty then appendToLast steps line
    else steps ++ [line]) []

/-- The unnumbered branch of `extractInstructions` (lines 344–383): metadata
lines are skipped; a short line ending in a colon is a section header; a line
longer than twenty characters flushes the current step; other lines extend or
start the current step, which is flushed at headers and at the end. -/
def buildUnnumbered (lines : List Str) : List Str :=
  let res := lines.foldl (fun (acc : List Str × Str) line =>
    if (findSplitP metadataAt line).isSome then acc
    else
      let isSectionHeader := decide (line.length < 30) && (line.getLast? == some ':')
      let isNewParagraph := decide (line.length > 20)
      if isSectionHeader || (isNewParagraph && !acc.2.isEmpty) then
        (acc.1 ++ (if acc.2.isEmpty then [] else [acc.2]) ++ [line], [])
      else if !acc.2.isEmpty then (acc.1, acc.2 ++ ' ' :: line)
      else (acc.1, line)) (([], []) : List Str × Str)
  res.1 ++ (if res.2.isEmpty then [] else [res.2])

/-- The `extractInstructions` function of src/unnamed/part_003 lines 292–384:
locate the instructions block (empty capture is falsy), trim it, discard
everything from the first metadata label on, then segment by the numbered or
unnumbered strategy. -/
def extractInstructions (text : Str) : List Str :=
  match (findSplitP (fun t => (tryInstructionsHead t).isSome) text).bind
      (fun ab => tryInstructionsHead ab.2) with
  | none => []
  | some body0 =>
    let body := captureToLookahead instructionsLookahead body0
    if body.isEmpty then [] else
    let instructionText := trimL body
    let actual := trimL (splitAtMetadata instructionText)
    let lines := ((splitCrLf actual).map trimL).filter (fun l => !l.isEmpty)
    if hasNumberedSteps actual then buildNumberedSteps lines else buildUnnumbered lines

/-- Result record of `extractMacros`: the four core values plus the optional
nutrients it conditionally attaches. -/
structure MacrosR where
  calories : Nat
  protein : Nat
  carbs : Nat
  fat : Nat
  fiber : Option Nat := none
  sugar : Option Nat := none
  sodium : Option Nat := none
  saturatedFat : Option Nat := none
deriving DecidableEq, Repr

/-- Attempt of one nutrient label followed by `[:\-]*\s*(\d+)` at the current
position; the label alternatives are tried in source order. -/
def tryLabelNum (labels : List Str) (t : Str) : Option Nat :=
  labels.firstM (fun k =>
    if ciPref k t then
      let ds := (((t.drop k.length).dropWhile (fun c => c == ':' || c == '-')).dropWhile
        isWsC).takeWhile Char.isDigit
      if ds.isEmpty then none else some (natOfDigits ds)
    else none)

/-- Leftmost match of a `<Label>[:\-]*\s*(\d+)` nutrient pattern, returning
the parsed integer. -/
def findLabeledNum (labels : List Str) (t : Str) : Option Nat :=
  (findSplitP (fun u => (tryLabelNum labels u).isSome) t).bind
    (fun ab => tryLabelNum labels ab.2)

/-- The `\s*(?:Information|Facts|Values|Macros)` tail of the first
nutrition-header alternative. -/
def nutritionWord (r : Str) : Option Str :=
  let r2 := r.dropWhile isWsC
  if ciPref "information".data r2 then some (r2.drop 11)
  else if ciPref "facts".data r2 then some (r2.drop 5)
  else if ciPref "values".data r2 then some (r2.drop 6)
  else if ciPref "macros".data r2 then some (r2.drop 6)
  else none

/-- The `Nutrition(?:al)?\s*(?:Information|Facts|Values|Macros)` alternative;
the optional `al` is greedy and backtracks. -/
def tryNutritionAlt1 (t : Str) : Option Str :=
  if ciPref "nutrition".data t then
    (if ciPref "al".data (t.drop 9) then nutritionWord (t.drop 11) else none) <|>
    nutritionWord (t.drop 9)
  else none

/-- The `Nutritional\s*Information` alternative. -/
def tryNutritionAlt3 (t : Str) : Option Str :=
  if ciPref "nutritional".data t then
    let r2 := (t.drop 11).dropWhile isWsC
    if ciPref "information".data r2 then some (r2.drop 11) else none
  else none

/-- Anchored attempt of the nutrition-section header
`(?:Nutrition(?:al)?\s*(?:Information|Facts|Values|Macros)|Macros|Nutritional\s*Information)`
(case-insensitive); returns the text after the header. -/
def tryNutritionHead (t : Str) : Option Str :=
  tryNutritionAlt1 t <|>
  (if ciPref "macros".data t then some (t.drop 6) else none) <|>
  tryNutritionAlt3 t

/-- The lookahead `(?=\n\n|\n#|\n##|$)` terminating the nutrition capture. -/
def nutritionLookahead (t : Str) : Bool :=
  match t with
  | '\n' :: '\n' :: _ => true
  | '\n' :: '#' :: _ => true
  | _ => false

/-- The capture of the nutrition-section regex (lines 475): the leftmost
header, `[:\-]*\s*` consumed greedily, then the dotall lazy capture up to a
blank line, a heading or the end. -/
def nutritionCapture (text : Str) : Option Str :=
  ((findSplitP (fun t => (tryNutritionHead t).isSome) text).bind
      (fun ab => tryNutritionHead ab.2)).map (fun r =>
    captureToLookahead nutritionLookahead
      ((r.dropWhile (fun c => c == ':' || c == '-')).dropWhile isWsC))

/-- The `extractMacros` function of src/unnamed/part_003 lines 473–531: with
a non-empty nutrition-section capture, the eight nutrient patterns are matched
inside the capture and a record is always built (optional nutrients attached
only when matched); otherwise the four core patterns are matched against the
whole text, a record is built when at least one matched, and `none` is
returned when none did. -/
def extractMacros (text : Str) : Option MacrosR :=
  let fallback : Option MacrosR :=
    let cal := findLabeledNum ["calories".data, "energy".data] text
    let pro := findLabeledNum ["protein".data] text
    let car := findLabeledNum ["carbs".data, "carbohydrates".data] text
    let fat := findLabeledNum ["fat".data] text
    if cal.isSome || pro.isSome || car.isSome || fat.isSome then
      some { calories := cal.getD 0, protein := pro.getD 0, carbs := car.getD 0,
             fat := fat.getD 0 }
    else none
  match nutritionCapture text with
  | some nt =>
    if nt.isEmpty then fallback else
    some { calories := (findLabeledNum ["calories".data, "energy".data] nt).getD 0
           protein := (findLabeledNum ["protein".data] nt).getD 0
           carbs := (findLabeledNum ["carbs".data, "carbohydrates".data] nt).getD 0
           fat := (findLabeledNum ["fat".data] nt).getD 0
           fiber := findLabeledNum ["fiber".data] nt
           sugar := findLabeledNum ["sugar".data] nt
           sodium := findLabeledNum ["sodium".data] nt
           saturatedFat := findLabeledNum ["saturated fat".data, "sat fat".data] nt }
  | none => fallback

/-- Split on `/[\n\r]{2,}/`: a separator is a run of at least two line
terminators; a single one stays inside its piece.  Fuel-structural. -/
def splitParaF : Nat → Str → Str → List Str
  | 0, cur, _ => [cur.reverse]
  | _ + 1, cur, [] => [cur.reverse]
  | fuel + 1, cur, c :: cs =>
    if isNlC c then
      if cs.head?.any isNlC then cur.reverse :: splitParaF fuel [] (cs.dropWhile isNlC)
      else splitParaF fuel (c :: cur) cs
    else splitParaF fuel (c :: cur) cs

/-- The `extractFallbackInstructions` function of src/unnamed/part_003 lines
553–560: paragraphs (split at blank lines), trimmed, kept when strictly
between 20 and 500 characters, capped at ten entries. -/
def extractFallbackInstructions (text : Str) : List Str :=
  (((splitParaF text.length [] text).map trimL).filter
    (fun para => decide (20 < para.length) && decide (para.length < 500))).take 10

/-- The JavaScript word-character class `\w`. -/
def isWordChar (c : Char) : Bool := c.isAlphanum || c == '_'

/-- One alternative of `/^(Servings|Cooking Time|Difficulty):?\s+\w+$/i`: the
label, an optional colon, at least one whitespace character and word
characters up to the very end. -/
def tryMetaOnlyAfter (label : Str) (l : Str) : Bool :=
  if ciPref label l then
    let r := l.drop label.length
    let r1 := if r.head? == some ':' then r.drop 1 else r
    let w := r1.takeWhile isWsC
    let rest := r1.drop w.length
    !w.isEmpty && !rest.isEmpty && rest.all isWordChar
  else false

/-- The metadata-only line test of `processedInstructions`
(`/^(Servings|Cooking Time|Difficulty):?\s+\w+$/i`). -/
def metadataOnlyLine (l : Str) : Bool :=
  tryMetaOnlyAfter "servings".data l || tryMetaOnlyAfter "cooking time".data l ||
  tryMetaOnlyAfter "difficulty".data l

/-- Index of the leftmost position where `p` holds (`match.index` for an
unanchored search). -/
def findIdxOfPred (p : Str → Bool) (l : Str) : Option Nat :=
  (findSplitP p l).map (fun ab => ab.1.length)

/-- Leftmost split with one character of look-behind, for patterns with a
leading word boundary. -/
def findSplitPrev (p : Option Char → Str → Bool) : Option Char → Str → Option (Str × Str)
  | _, [] => none
  | prev, c :: cs =>
    if p prev (c :: cs) then some ([], c :: cs)
    else (findSplitPrev p (some c) cs).map (fun ab => (c :: ab.1, ab.2))

/-- Whether `\b(Time|servings|difficulty)\b` (case-insensitive) matches at the
current position given the previous character. -/
def timeWordAt (prev : Option Char) (t : Str) : Bool :=
  !(prev.any isWordChar) &&
  ((ciPref "time".data t && !((t.drop 4).head?.any isWordChar)) ||
   (ciPref "servings".data t && !((t.drop 8).head?.any isWordChar)) ||
   (ciPref "difficulty".data t && !((t.drop 10).head?.any isWordChar)))

/-- `match.index` of `/\b(Time|servings|difficulty)\b/i`. -/
def findTimeIdx (l : Str) : Option Nat :=
  (findSplitPrev timeWordAt none l).map (fun ab => ab.1.length)

/-- Whether `/\.\s+[A-Z]/` matches at the current position. -/
def periodCapAt (t : Str) : Bool :=
  match t with
  | '.' :: r =>
    let w := r.takeWhile isWsC
    !w.isEmpty && ((r.drop w.length).head?.any (fun c => 'A' ≤ c && c ≤ 'Z'))
  | _ => false

/-- Whether `/\.\s+(Cooking Time|Cook Time|Servings|Difficulty)/i` matches at
the current position. -/
def metaAfterPeriodAt (t : Str) : Bool :=
  match t with
  | '.' :: r =>
    let w := r.takeWhile isWsC
    let rest := r.drop w.length
    !w.isEmpty && (ciPref "cooking time".data rest || ciPref "cook time".data rest ||
      ciPref "servings".data rest || ciPref "difficulty".data rest)
  | _ => false

/-- The else branch of the serve special case (RecipeCard.tsx lines 301–342):
the time-word cut with its sentence-break refinement, the after-period
metadata cut, and the case-sensitive `includes`/`indexOf` cut.  As in the
source, a match at index 0 is falsy and leaves the content unchanged. -/
def serveElse (content0 : Str) : Str :=
  let c1 :=
    match findTimeIdx content0 with
    | some i =>
      if i ≠ 0 then
        let contentBeforeTime := content0.take i
        match findIdxOfPred periodCapAt contentBeforeTime with
        | some j => if j ≠ 0 then trimL (contentBeforeTime.take (j + 1))
                    else trimL contentBeforeTime
        | none => trimL contentBeforeTime
      else content0
    | none => content0
  let c2 :=
    match findIdxOfPred metaAfterPeriodAt c1 with
    | some j => if j ≠ 0 then trimL (c1.take (j + 1)) else c1
    | none => c1
  if includesL c2 "Cooking Time:".data || includesL c2 "Servings:".data ||
     includesL c2 "Difficulty:".data then
    let idxs := [findIdxOfPred (fun t => "Cooking Time:".data.isPrefixOf t) c2,
                 findIdxOfPred (fun t => "Servings:".data.isPrefixOf t) c2,
                 findIdxOfPred (fun t => "Difficulty:".data.isPrefixOf t) c2].filterMap id
    match idxs.min? with
    | some first => trimL (c2.take first)
    | none => c2
  else c2

/-- The serve special case (RecipeCard.tsx lines 288–343): cut at the first
metadata label when it is at a non-zero index (JavaScript `match.index` is
falsy at 0), otherwise run the else branch. -/
def serveTrim (content0 : Str) : Str :=
  match findIdxOfPred metadataAt content0 with
  | some i => if i ≠ 0 then trimL (content0.take i) else serveElse content0
  | none => serveElse content0

/-- Whether `/^\d+[\.\)]/` matches (the header exclusion). -/
def startsWithNumDot (l : Str) : Bool :=
  let ds := l.takeWhile Char.isDigit
  !ds.isEmpty &&
    ((l.drop ds.length).head? == some '.' || (l.drop ds.length).head? == some ')')

/-- Whether `/^serve\b|^serving\b/i` matches. -/
def serveWordTest (l : Str) : Bool :=
  (ciPref "serve".data l && !((l.drop 5).head?.any isWordChar)) ||
  (ciPref "serving".data l && !((l.drop 7).head?.any isWordChar))

/-- One processed instruction entry of `RecipeCard.tsx`. -/
structure ProcInstr where
  originalText : Str
  content : Str
  isHeader : Bool
  hasLeadingNumber : Bool
  stepNumber : Option Nat
  isError : Bool
deriving DecidableEq, Repr

/-- The per-instruction mapping of `processedInstructions` (RecipeCard.tsx
lines 266–353): trim, header classification, number extraction, and the serve
special case. -/
def procOne (instruction : Str) : ProcInstr :=
  let trimmed := trimL instruction
  let isHeader := decide (trimmed.length < 40) && (trimmed.getLast? == some ':') &&
    !(startsWithNumDot trimmed)
  let nm := numberMatchCore trimmed
  let hasNumber := nm.isSome
  let content0 := match nm with | some p => trimL p.2 | none => trimmed
  let serveCond :=
    ciPref "serve:".data trimmed ||
    (hasNumber && ciPref "serve:".data content0) ||
    (hasNumber && serveWordTest content0)
  { originalText := trimmed
    content := if serveCond then serveTrim content0 else content0
    isHeader := isHeader
    hasLeadingNumber := hasNumber
    stepNumber := nm.map (·.1)
    isError := false }

/-- Sentinel phrases of the error-entry branch. -/
def notDetectedPhrase : Str := "could not be detected".data

/-- Second sentinel phrase of the error-entry branch. -/
def noInstructionsPhrase : Str := "No instructions detected".data

/-- The `processedInstructions` memo of RecipeCard.tsx lines 241–354.  Because
of the source's operator precedence the error branch tests
`(length === 1 && head includes "could not be detected") || head includes
"No instructions detected"`; on an empty instructions list the source throws a
`TypeError` reading `instructions[0]`, embedded as `none`. -/
def processedInstructions (instrs : List Str) : Option (List ProcInstr) :=
  match instrs with
  | [] => none
  | i0 :: _ =>
    if (decide (instrs.length = 1) && includesL i0 notDetectedPhrase) ||
       includesL i0 noInstructionsPhrase then
      some [{ originalText := i0, content := i0, isHeader := false,
              hasLeadingNumber := false, stepNumber := none, isError := true }]
    else
      some ((instrs.filter (fun i => !(metadataOnlyLine (trimL i)))).map procOne)

/-- JSON values (the fragment `JSON.parse` needs on this repository's inputs:
objects, arrays, strings with the simple escapes, integers, booleans and
null). -/
inductive Json where
  | null : Json
  | bool : Bool → Json
  | num : Int → Json
  | str : Str → Json
  | arr : List Json → Json
  | obj : List (Str × Json) → Json
deriving Repr

/-- Parse a JSON string body after the opening quote; returns the string and
the remaining input. -/
def jStringF : Nat → Str → Option (Str × Str)
  | 0, _ => none
  | _ + 1, [] => none
  | fuel + 1, c :: cs =>
    if c == '"' then some ([], cs)
    else if c == '\\' then
      match cs with
      | e :: cs2 =>
        (if e == '"' then some '"' else if e == '\\' then some '\\'
         else if e == '/' then some '/' else if e == 'n' then some '\n'
         else if e == 't' then some '\t' else if e == 'r' then some '\r'
         else none).bind
          (fun d => (jStringF fuel cs2).map (fun sr => (d :: sr.1, sr.2)))
      | [] => none
    else (jStringF fuel cs).map (fun sr => (c :: sr.1, sr.2))

/-- Parse a JSON integer (fractions and exponents do not occur in the
repository's structured responses and are rejected). -/
def jNumber (l : Str) : Option (Int × Str) :=
  match l with
  | '-' :: r =>
    let ds := r.takeWhile Char.isDigit
    if ds.isEmpty then none else some (-(natOfDigits ds : Int), r.drop ds.length)
  | _ =>
    let ds := l.takeWhile Char.isDigit
    if ds.isEmpty then none else some ((natOfDigits ds : Int), l.drop ds.length)

mutual

/-- Parse one JSON value (leading whitespace allowed), fuel-structural. -/
def jValue : Nat → Str → Option (Json × Str)
  | 0, _ => none
  | fuel + 1, l0 =>
    match l0.dropWhile isWsC with
    | '"' :: r => (jStringF (r.length + 1) r).map (fun sr => (Json.str sr.1, sr.2))
    | '{' :: r =>
      (match r.dropWhile isWsC with
       | '}' :: r2 => some (Json.obj [], r2)
       | _ => (jObjTail fuel r).map (fun fr => (Json.obj fr.1, fr.2)))
    | '[' :: r =>
      (match r.dropWhile isWsC with
       | ']' :: r2 => some (Json.arr [], r2)
       | _ => (jArrTail fuel r).map (fun er => (Json.arr er.1, er.2)))
    | 't' :: r => if ['r', 'u', 'e'].isPrefixOf r then some (Json.bool true, r.drop 3) else none
    | 'f' :: r => if ['a', 'l', 's', 'e'].isPrefixOf r then some (Json.bool false, r.drop 4)
                  else none
    | 'n' :: r => if ['u', 'l', 'l'].isPrefixOf r then some (Json.null, r.drop 3) else none
    | l => (jNumber l).map (fun nr => (Json.num nr.1, nr.2))

/-- Parse the elements of a non-empty JSON array up to the closing bracket. -/
def jArrTail : Nat → Str → Option (List Json × Str)
  | 0, _ => none
  | fuel + 1, l =>
    (jValue fuel l).bind (fun vr =>
      match vr.2.dropWhile isWsC with
      | ',' :: r3 => (jArrTail fuel r3).map (fun er => (vr.1 :: er.1, er.2))
      | ']' :: r3 => some ([vr.1], r3)
      | _ => none)

/-- Parse the fields of a non-empty JSON object up to the closing brace. -/
def jObjTail : Nat → Str → Option (List (Str × Json) × Str)
  | 0, _ => none
  | fuel + 1, l =>
    match l.dropWhile isWsC with
    | '"' :: r =>
      (jStringF (r.length + 1) r).bind (fun kr =>
        match kr.2.dropWhile isWsC with
        | ':' :: r2 =>
          (jValue fuel r2).bind (fun vr =>
            match vr.2.dropWhile isWsC with
            | ',' :: r3 => (jObjTail fuel r3).map (fun fr => ((kr.1, vr.1) :: fr.1, fr.2))
            | '}' :: r3 => some ([(kr.1, vr.1)], r3)
            | _ => none)
        | _ => none)
    | _ => none

end

/-- JavaScript `JSON.parse`: one value, nothing but whitespace after it. -/
def jsonParse (l : Str) : Option Json :=
  (jValue (2 * l.length + 4) l).bind (fun vr =>
    if (vr.2.dropWhile isWsC).isEmpty then some vr.1 else none)

/-- Property lookup on a parsed JSON object. -/
def jGet (fields : List (Str × Json)) (key : Str) : Option Json :=
  (fields.find? (fun kv => kv.1 == key)).map (·.2)

/-- JavaScript truthiness of a (possibly absent) JSON value. -/
def jTruthy : Option Json → Bool
  | none => false
  | some Json.null => false
  | some (Json.bool b) => b
  | some (Json.num n) => decide (n ≠ 0)
  | some (Json.str s) => !s.isEmpty
  | some (Json.arr _) => true
  | some (Json.obj _) => true

/-- String content of a field (absent fields are `undefined` and sanitise to
the empty string through `cleanMarkdown`'s falsy guard; non-string field
values would make the source throw inside the JSON branch and do not occur on
the inputs of any claim). -/
def jStr : Option Json → Str
  | some (Json.str s) => s
  | _ => []

/-- Numeric content of a field, defaulting to zero. -/
def jNat : Option Json → Nat
  | some (Json.num n) => n.toNat
  | _ => 0

/-- Optional numeric content of a field. -/
def jNatOpt : Option Json → Option Nat
  | some (Json.num n) => some n.toNat
  | _ => none

/-- The macros field of the JSON branch
(`jsonData.macros || jsonData.nutrition || jsonData.nutritionalInfo || null`);
the source passes the raw object through, embedded here by its numeric
fields. -/
def jsonMacros (fields : List (Str × Json)) : Option MacrosR :=
  match (if jTruthy (jGet fields "macros".data) then jGet fields "macros".data
         else if jTruthy (jGet fields "nutrition".data) then jGet fields "nutrition".data
         else if jTruthy (jGet fields "nutritionalInfo".data) then
           jGet fields "nutritionalInfo".data
         else none) with
  | some (Json.obj mf) =>
    some { calories := jNat (jGet mf "calories".data)
           protein := jNat (jGet mf "protein".data)
           carbs := jNat (jGet mf "carbs".data)
           fat := jNat (jGet mf "fat".data)
           fiber := jNatOpt (jGet mf "fiber".data)
           sugar := jNatOpt (jGet mf "sugar".data)
           sodium := jNatOpt (jGet mf "sodium".data)
           saturatedFat := jNatOpt (jGet mf "saturatedFat".data) }
  | _ => none

/-- The recipe value produced by `parseRecipeFromResponse`.  The fields no
claim mentions (description, cookTime, prepTime, totalTime, servings,
difficulty, tags, imageUrl) are omitted from the embedding. -/
structure ParsedRecipe where
  title : Str
  ingredients : List Str
  instructions : List Str
  macros : Option MacrosR
deriving DecidableEq, Repr

/-- The structured branch of `parseRecipeFromResponse` (lines 144–175): a
successful strict parse of an object carrying a truthy `title` and a truthy
`ingredients` or `instructions` is sanitised field by field and returned;
anything else falls through to heuristic extraction (the inner `catch`). -/
def recipeJsonBranch (text : Str) : Option ParsedRecipe :=
  match jsonParse text with
  | some (Json.obj fields) =>
    if jTruthy (jGet fields "title".data) &&
       (jTruthy (jGet fields "ingredients".data) ||
        jTruthy (jGet fields "instructions".data)) then
      some { title := jsOr (cleanMarkdown (jStr (jGet fields "title".data))) "Unknown Dish".data
             ingredients := (match jGet fields "ingredients".data with
               | some (Json.arr xs) => xs.map (fun x => cleanMarkdown (jStr (some x)))
               | _ => [])
             instructions := (match jGet fields "instructions".data with
               | some (Json.arr xs) => xs.map (fun x => cleanMarkdown (jStr (some x)))
               | _ => [])
             macros := jsonMacros fields }
    else none
  | _ => none

/-- The `parseRecipeFromResponse` function of src/unnamed/part_003 lines
141–218 on the claim-relevant fields: the structured branch when the trimmed
text is brace-delimited, otherwise heuristic extraction with sanitisation and
the `"Homemade Dish"` title default.  The outer `catch` (lines 196–217) is
unreachable in the embedding because every modelled operation is total. -/
def parseRecipeFromResponse (text : Str) : ParsedRecipe :=
  let t := trimL text
  match (if t.head? == some '{' && t.getLast? == some '}'
         then recipeJsonBranch text else none) with
  | some r => r
  | none =>
    { title := jsOr (cleanMarkdown ((extractTitle text).getD [])) "Homemade Dish".data
      ingredients := (extractIngredients text).map cleanMarkdown
      instructions := (extractInstructions text).map cleanMarkdown
      macros := extractMacros text }

/-- The recipe value assembled by the `safeRecipe` effect of
src/src/pages/Index.tsx lines 201–215, on the claim-relevant fields (id,
description, cookTime, servings, imageUrl and tags are omitted; the
`Array.isArray` guards always hold in the embedding). -/
structure SafeRecipe where
  title : Str
  ingredients : List Str
  instructions : List Str
deriving DecidableEq, Repr

/-- The ingredients placeholder of `safeRecipe`. -/
def ingredientsSentinel : Str :=
  "Ingredients could not be detected. Please try again with a clearer image.".data

/-- The instructions placeholder of `safeRecipe`. -/
def instructionsSentinel : Str :=
  "Instructions could not be detected. Please try again with a clearer image.".data

/-- The `safeRecipe` assembly of src/src/pages/Index.tsx lines 201–215:
formatting-cleaned title with default, ingredients cleaned or replaced by the
sentinel when empty, instructions passed through or replaced by the sentinel
when empty. -/
def safeRecipe (r : ParsedRecipe) : SafeRecipe :=
  { title := jsOr (cleanFormatting r.title) "Homemade Dish".data
    ingredients := if decide (r.ingredients.length > 0)
      then r.ingredients.map cleanFormatting else [ingredientsSentinel]
    instructions := if decide (r.instructions.length > 0)
      then r.instructions else [instructionsSentinel] }

/-- The full recipe pipeline on one raw model response: parse, then the
`safeRecipe` assembly. -/
def recipePipeline (text : Str) : SafeRecipe := safeRecipe (parseRecipeFromResponse text)

/-- The article value checked by `_generateArticleForTopic` on the
claim-relevant required fields (readTime, tags, imageUrl, id, publishedAt are
omitted). -/
structure ArticleData where
  title : Str
  content : Str
  summary : Str
deriving DecidableEq, Repr

/-- JavaScript `content.replace(/```json\s*/, '')` (first occurrence). -/
def stripJsonFenceLead (l : Str) : Str :=
  match findSplitP (fun t => "```json".data.isPrefixOf t) l with
  | some bb => bb.1 ++ (bb.2.drop 7).dropWhile isWsC
  | none => l

/-- JavaScript `content.replace(/```\s*$/, '')`: a fence followed only by
whitespace up to the end of the string. -/
def stripFenceTrail (l : Str) : Str :=
  match findSplitP (fun t => "```".data.isPrefixOf t && (t.drop 3).all isWsC) l with
  | some bb => bb.1
  | none => l

/-- The required-field check of `_generateArticleForTopic` (articleService.ts
lines 175–178): truthy `title`, `content` and `summary`; failing it throws
`ArticleGenerationError`.  A parse result that is not an object has no truthy
fields (in the source a `null` result would even throw a `TypeError` on
property access — an exception either way). -/
def articleCheck (j : Json) : Except Str ArticleData :=
  match j with
  | Json.obj fields =>
    if jTruthy (jGet fields "title".data) && jTruthy (jGet fields "content".data) &&
       jTruthy (jGet fields "summary".data) then
      Except.ok { title := jStr (jGet fields "title".data)
                  content := jStr (jGet fields "content".data)
                  summary := jStr (jGet fields "summary".data) }
    else Except.error "missing required fields".data
  | _ => Except.error "missing required fields".data

/-- The article normalization of `_generateArticleForTopic` (articleService.ts
lines 161–178): strict parse; on failure strip the code fences, trim and
retry; on a second failure, or on missing required fields, the source throws
(`Except.error` in the embedding). -/
def parseArticleData (content : Str) : Except Str ArticleData :=
  match jsonParse content with
  | some j => articleCheck j
  | none =>
    match jsonParse (trimL (stripFenceTrail (stripJsonFenceLead content))) with
    | some j => articleCheck j
    | none => Except.error "Failed to parse article data".data

/-- The structured response of the C8 scenario,
`{"title":"T","ingredients":["a"],"instructions":["b"]}`. -/
def jsonRecipeInput : Str :=
  "\x7b\"title\":\"T\",\"ingredients\":[\"a\"],\"instructions\":[\"b\"]\x7d".data

/-! ## Sanitiser lemmas

The amended idempotence claim (C2) restricts inputs to letters, digits and
spaces; on those, every step of `cleanMarkdown` other than whitespace
collapsing and trimming is the identity, and collapsing followed by trimming
is idempotent. -/

/-- Characters the amended idempotence statement allows: ASCII letters and
digits, and the space. -/
def plainChar (c : Char) : Bool := c.isAlphanum || c == ' '

theorem replaceAllF_of_not_mem {p : Char} (ps rep : Str) :
    ∀ (fuel : Nat) (l : Str), p ∉ l → replaceAllF (p :: ps) rep fuel l = l := by
  intro fuel
  induction fuel with
  | zero => intro l _; rfl
  | succ n ih =>
    intro l hmem
    cases l with
    | nil => rfl
    | cons c cs =>
      have hc : (p == c) = false :=
        beq_eq_false_iff_ne.mpr (fun h => hmem (h ▸ List.mem_cons_self _ _))
      have hpre : (p :: ps).isPrefixOf (c :: cs) = false := by
        simp [List.isPrefixOf, hc]
      have htail := ih cs (fun h => hmem (List.mem_cons_of_mem _ h))
      simp [replaceAllF, hpre, htail]

theorem replaceAll_of_not_mem {p : Char} (ps rep : Str) (l : Str) (h : p ∉ l) :
    replaceAll (p :: ps) rep l = l :=
  replaceAllF_of_not_mem ps rep l.length l h

theorem stripHeadingsF_of_not_mem (mh : Option Nat) :
    ∀ (fuel : Nat) (b : Bool) (l : Str), '#' ∉ l → stripHeadingsF mh fuel b l = l := by
  intro fuel
  induction fuel with
  | zero => intro b l _; rfl
  | succ n ih =>
    intro b l hmem
    cases l with
    | nil => rfl
    | cons c cs =>
      have htail := ih (isNlC c) cs (fun h => hmem (List.mem_cons_of_mem _ h))
      cases b with
      | false => simp [stripHeadingsF, htail]
      | true =>
        have hc : ¬ (c == '#') = true := by
          intro h
          exact hmem (by simp_all)
        have hc' : c ≠ '#' := fun h => hc (by simp [h])
        have hk : ((c :: cs).takeWhile (· == '#')).length = 0 := by
          simp [List.takeWhile_cons_of_neg, hc']
        simp [stripHeadingsF, hk, headingOkCount, htail]

theorem stripLinksF_of_not_mem :
    ∀ (fuel : Nat) (l : Str), '[' ∉ l → stripLinksF fuel l = l := by
  intro fuel
  induction fuel with
  | zero => intro l _; rfl
  | succ n ih =>
    intro l hmem
    cases l with
    | nil => rfl
    | cons c cs =>
      have hc : (c == '[') = false :=
        beq_eq_false_iff_ne.mpr (fun h => hmem (h ▸ List.mem_cons_self _ _))
      have htail := ih cs (fun h => hmem (List.mem_cons_of_mem _ h))
      simp [stripLinksF, hc, htail]

theorem wsColonF_of_not_mem :
    ∀ (fuel : Nat) (l : Str), ':' ∉ l → wsColonF fuel l = l := by
  intro fuel
  induction fuel with
  | zero => intro l _; rfl
  | succ n ih =>
    intro l hmem
    cases l with
    | nil => rfl
    | cons c cs =>
      have htail := ih cs (fun h => hmem (List.mem_cons_of_mem _ h))
      by_cases hws : isWsC c = true
      · have hdw : ∀ d rest, (c :: cs).dropWhile isWsC = d :: rest → d ≠ ':' := by
          intro d rest heq h
          apply hmem
          have : d ∈ (c :: cs).dropWhile isWsC := by rw [heq]; exact List.mem_cons_self _ _
          exact h ▸ (List.dropWhile_sublist _).mem this
        rw [wsColonF, if_pos hws]
        rcases hd : (c :: cs).dropWhile isWsC with _ | ⟨d, rest⟩
        · simp [htail]
        · have hne : d ≠ ':' := hdw d rest hd
          split
          · next heq => exact absurd (List.head_eq_of_cons_eq heq.symm).symm hne
          · simp [htail]
      · rw [wsColonF, if_neg hws]
        simp [htail]

theorem colonWsF_of_not_mem :
    ∀ (fuel : Nat) (l : Str), ':' ∉ l → colonWsF fuel l = l := by
  intro fuel
  induction fuel with
  | zero => intro l _; rfl
  | succ n ih =>
    intro l hmem
    cases l with
    | nil => rfl
    | cons c cs =>
      have hc : (c == ':') = false :=
        beq_eq_false_iff_ne.mpr (fun h => hmem (h ▸ List.mem_cons_self _ _))
      have htail := ih cs (fun h => hmem (List.mem_cons_of_mem _ h))
      simp [colonWsF, hc, htail]

theorem fixNumF_of_not_mem :
    ∀ (fuel : Nat) (l : Str), '.' ∉ l → fixNumF fuel l = l := by
  intro fuel
  induction fuel with
  | zero => intro l _; rfl
  | succ n ih =>
    intro l hmem
    cases l with
    | nil => rfl
    | cons c cs =>
      have htail := ih cs (fun h => hmem (List.mem_cons_of_mem _ h))
      by_cases hd : c.isDigit = true
      · have hr1 : '.' ∉ (c :: cs).dropWhile Char.isDigit := by
          intro h
          exact hmem ((List.dropWhile_sublist _).mem h)
        have hr1' := ih _ hr1
        have hdw : ∀ d rest, ((c :: cs).dropWhile Char.isDigit).dropWhile isWsC = d :: rest →
            d ≠ '.' := by
          intro d rest hdw h
          apply hr1
          have : d ∈ ((c :: cs).dropWhile Char.isDigit).dropWhile isWsC := by
            rw [hdw]; exact List.mem_cons_self _ _
          exact h ▸ (List.dropWhile_sublist _).mem this
        rw [fixNumF, if_pos hd]
        rcases hdd : ((c :: cs).dropWhile Char.isDigit).dropWhile isWsC with _ | ⟨d, rest⟩
        · simp [hdd, hr1']
        · have hne : d ≠ '.' := hdw d rest hdd
          simp only [hdd]
          split
          · next heq => exact absurd (List.head_eq_of_cons_eq heq.symm).symm hne
          · simp [hr1']
      · rw [fixNumF, if_neg hd]
        simp [htail]

theorem collapseAll_head_not_ws :
    ∀ (l : Str) (c : Char), (collapseAll true l).head? = some c → isWsC c = false := by
  intro l
  induction l with
  | nil => intro c h; simp [collapseAll] at h
  | cons a as ih =>
    intro c h
    by_cases hws : isWsC a = true
    · have e : collapseAll true (a :: as) = collapseAll true as := by simp [collapseAll, hws]
      rw [e] at h
      exact ih c h
    · have e : collapseAll true (a :: as) = a :: collapseAll false as := by
        simp [collapseAll, hws]
      rw [e] at h
      have hac : a = c := by simpa using h
      rw [← hac]
      exact Bool.eq_false_iff.mpr hws

theorem collapseAll_collapse2 :
    ∀ (l : Str) (s : Bool), collapseAll s (collapse2 s l) = collapseAll s l
  | [], _ => rfl
  | c :: cs, s => by
    by_cases hws : isWsC c = true
    · cases s with
      | true =>
        have h1 : collapse2 true (c :: cs) = collapse2 true cs := by simp [collapse2, hws]
        have h2 : collapseAll true (c :: cs) = collapseAll true cs := by simp [collapseAll, hws]
        rw [h1, h2, collapseAll_collapse2 cs true]
      | false =>
        by_cases hh : cs.head?.any isWsC = true
        · have h1 : collapse2 false (c :: cs) = ' ' :: collapse2 true cs := by
            simp [collapse2, hws, hh]
          have h2 : collapseAll false (' ' :: collapse2 true cs) =
              ' ' :: collapseAll true (collapse2 true cs) := by
            simp [collapseAll, isWsC]
          have h3 : collapseAll false (c :: cs) = ' ' :: collapseAll true cs := by
            simp [collapseAll, hws]
          rw [h1, h2, h3, collapseAll_collapse2 cs true]
        · have h1 : collapse2 false (c :: cs) = c :: collapse2 false cs := by
            simp [collapse2, hws, hh]
          have h2 : collapseAll false (c :: collapse2 false cs) =
              ' ' :: collapseAll true (collapse2 false cs) := by
            simp [collapseAll, hws]
          have h3 : collapseAll false (c :: cs) = ' ' :: collapseAll true cs := by
            simp [collapseAll, hws]
          rw [h1, h2, h3]
          congr 1
          cases cs with
          | nil => rfl
          | cons d ds =>
            have hd : isWsC d = false := by
              cases hval : isWsC d
              · rfl
              · exact absurd (by simp [hval] : (d :: ds).head?.any isWsC = true) hh
            have e1 : collapse2 false (d :: ds) = d :: collapse2 false ds := by
              simp [collapse2, hd]
            have e2 : collapseAll true (d :: collapse2 false ds) =
                d :: collapseAll false (collapse2 false ds) := by
              simp [collapseAll, hd]
            have e3 : collapseAll true (d :: ds) = d :: collapseAll false ds := by
              simp [collapseAll, hd]
            rw [e1, e2, e3, collapseAll_collapse2 ds false]
    · have h1 : collapse2 s (c :: cs) = c :: collapse2 false cs := by
        cases s <;> simp [collapse2, hws]
      have h2 : collapseAll s (c :: collapse2 false cs) =
          c :: collapseAll false (collapse2 false cs) := by
        cases s <;> simp [collapseAll, hws]
      have h3 : collapseAll s (c :: cs) = c :: collapseAll false cs := by
        cases s <;> simp [collapseAll, hws]
      rw [h1, h2, h3, collapseAll_collapse2 cs false]
  termination_by l _ => l.length

theorem mem_collapseAll :
    ∀ (s : Bool) (l : Str) (c : Char), c ∈ collapseAll s l → c = ' ' ∨ c ∈ l := by
  intro s l
  induction l generalizing s with
  | nil => intro c h; simp [collapseAll] at h
  | cons a as ih =>
    intro c h
    by_cases hws : isWsC a = true
    · cases s with
      | true =>
        have e : collapseAll true (a :: as) = collapseAll true as := by simp [collapseAll, hws]
        rw [e] at h
        rcases ih true c h with h1 | h1
        · exact Or.inl h1
        · exact Or.inr (List.mem_cons_of_mem _ h1)
      | false =>
        have e : collapseAll false (a :: as) = ' ' :: collapseAll true as := by
          simp [collapseAll, hws]
        rw [e] at h
        rcases List.mem_cons.mp h with h1 | h1
        · exact Or.inl h1
        · rcases ih true c h1 with h2 | h2
          · exact Or.inl h2
          · exact Or.inr (List.mem_cons_of_mem _ h2)
    · have e : collapseAll s (a :: as) = a :: collapseAll false as := by
        cases s <;> simp [collapseAll, hws]
      rw [e] at h
      rcases List.mem_cons.mp h with h1 | h1
      · exact Or.inr (h1 ▸ List.mem_cons_self _ _)
      · rcases ih false c h1 with h2 | h2
        · exact Or.inl h2
        · exact Or.inr (List.mem_cons_of_mem _ h2)

theorem mem_collapse2 :
    ∀ (s : Bool) (l : Str) (c : Char), c ∈ collapse2 s l → c = ' ' ∨ c ∈ l := by
  intro s l
  induction l generalizing s with
  | nil => intro c h; simp [collapse2] at h
  | cons a as ih =>
    intro c h
    by_cases hws : isWsC a = true
    · cases s with
      | true =>
        have e : collapse2 true (a :: as) = collapse2 true as := by simp [collapse2, hws]
        rw [e] at h
        rcases ih true c h with h1 | h1
        · exact Or.inl h1
        · exact Or.inr (List.mem_cons_of_mem _ h1)
      | false =>
        by_cases hh : as.head?.any isWsC = true
        · have e : collapse2 false (a :: as) = ' ' :: collapse2 true as := by
            simp [collapse2, hws, hh]
          rw [e] at h
          rcases List.mem_cons.mp h with h1 | h1
          · exact Or.inl h1
          · rcases ih true c h1 with h2 | h2
            · exact Or.inl h2
            · exact Or.inr (List.mem_cons_of_mem _ h2)
        · have e : collapse2 false (a :: as) = a :: collapse2 false as := by
            simp [collapse2, hws, hh]
          rw [e] at h
          rcases List.mem_cons.mp h with h1 | h1
          · exact Or.inr (h1 ▸ List.mem_cons_self _ _)
          · rcases ih false c h1 with h2 | h2
            · exact Or.inl h2
            · exact Or.inr (List.mem_cons_of_mem _ h2)
    · have e : collapse2 s (a :: as) = a :: collapse2 false as := by
        cases s <;> simp [collapse2, hws]
      rw [e] at h
      rcases List.mem_cons.mp h with h1 | h1
      · exact Or.inr (h1 ▸ List.mem_cons_self _ _)
      · rcases ih false c h1 with h2 | h2
        · exact Or.inl h2
        · exact Or.inr (List.mem_cons_of_mem _ h2)

theorem collapseAll_ws_eq_space :
    ∀ (s : Bool) (l : Str) (c : Char), c ∈ collapseAll s l → isWsC c = true → c = ' ' := by
  intro s l
  induction l generalizing s with
  | nil => intro c h; simp [collapseAll] at h
  | cons a as ih =>
    intro c h hc
    by_cases hws : isWsC a = true
    · cases s with
      | true =>
        have e : collapseAll true (a :: as) = collapseAll true as := by simp [collapseAll, hws]
        rw [e] at h
        exact ih true c h hc
      | false =>
        have e : collapseAll false (a :: as) = ' ' :: collapseAll true as := by
          simp [collapseAll, hws]
        rw [e] at h
        rcases List.mem_cons.mp h with h1 | h1
        · exact h1
        · exact ih true c h1 hc
    · have e : collapseAll s (a :: as) = a :: collapseAll false as := by
        cases s <;> simp [collapseAll, hws]
      rw [e] at h
      rcases List.mem_cons.mp h with h1 | h1
      · rw [h1] at hc; exact absurd hc (Bool.eq_false_iff.mpr hws ▸ by simp [hws])
      · exact ih false c h1 hc

/-- The relation forbidding two adjacent whitespace characters. -/
def noAdjWs (a b : Char) : Prop := ¬(isWsC a = true ∧ isWsC b = true)

theorem collapseAll_chain' :
    ∀ (s : Bool) (l : Str), List.Chain' noAdjWs (collapseAll s l) := by
  intro s l
  induction l generalizing s with
  | nil => simp [collapseAll]
  | cons a as ih =>
    by_cases hws : isWsC a = true
    · cases s with
      | true =>
        have e : collapseAll true (a :: as) = collapseAll true as := by simp [collapseAll, hws]
        rw [e]
        exact ih true
      | false =>
        have e : collapseAll false (a :: as) = ' ' :: collapseAll true as := by
          simp [collapseAll, hws]
        rw [e]
        refine List.chain'_cons'.mpr ⟨?_, ih true⟩
        intro y hy
        intro hand
        rw [collapseAll_head_not_ws as y hy] at hand
        exact Bool.noConfusion hand.2
    · have e : collapseAll s (a :: as) = a :: collapseAll false as := by
        cases s <;> simp [collapseAll, hws]
      rw [e]
      refine List.chain'_cons'.mpr ⟨?_, ih false⟩
      intro y _ hand
      exact hws hand.1

theorem collapseAll_eq_self :
    ∀ (l : Str), List.Chain' noAdjWs l → (∀ c ∈ l, isWsC c = true → c = ' ') →
      collapseAll false l = l ∧ (l.head?.any isWsC = false → collapseAll true l = l) := by
  intro l
  induction l with
  | nil => exact fun _ _ => ⟨rfl, fun _ => rfl⟩
  | cons a as ih =>
    intro hch hsp
    have hch' : List.Chain' noAdjWs as := (List.chain'_cons'.mp hch).2
    have hRel : ∀ y ∈ as.head?, noAdjWs a y := (List.chain'_cons'.mp hch).1
    have hsp' : ∀ c ∈ as, isWsC c = true → c = ' ' :=
      fun c hc => hsp c (List.mem_cons_of_mem _ hc)
    by_cases hws : isWsC a = true
    · have ha : a = ' ' := hsp a (List.mem_cons_self _ _) hws
      have hhead : as.head?.any isWsC = false := by
        cases hh : as.head? with
        | none => rfl
        | some y =>
          have hrel := hRel y hh
          cases hy : isWsC y
          · simp [hh, hy]
          · exact absurd ⟨hws, hy⟩ hrel
      constructor
      · have e : collapseAll false (a :: as) = ' ' :: collapseAll true as := by
          simp [collapseAll, hws]
        rw [e, (ih hch' hsp').2 hhead, ha]
      · intro hcontra
        simp [hws] at hcontra
    · constructor
      · have e : collapseAll false (a :: as) = a :: collapseAll false as := by
          simp [collapseAll, hws]
        rw [e, (ih hch' hsp').1]
      · intro _
        have e : collapseAll true (a :: as) = a :: collapseAll false as := by
          simp [collapseAll, hws]
        rw [e, (ih hch' hsp').1]

theorem mem_trimL {l : Str} {c : Char} (h : c ∈ trimL l) : c ∈ l := by
  unfold trimL dropTrailWs at h
  have h1 := List.mem_reverse.mp h
  have h2 := (List.dropWhile_sublist _).mem h1
  have h3 := List.mem_reverse.mp h2
  exact (List.dropWhile_sublist _).mem h3

theorem chain'_noAdjWs_reverse {l : Str} (h : List.Chain' noAdjWs l) :
    List.Chain' noAdjWs l.reverse := by
  rw [List.chain'_reverse]
  exact h.imp (fun a b hab => fun hand => hab ⟨hand.2, hand.1⟩)

theorem chain'_trimL {l : Str} (h : List.Chain' noAdjWs l) :
    List.Chain' noAdjWs (trimL l) := by
  unfold trimL dropTrailWs
  exact chain'_noAdjWs_reverse
    ((chain'_noAdjWs_reverse (h.suffix (List.dropWhile_suffix _))).suffix
      (List.dropWhile_suffix _))

theorem head_of_isPrefix {Y X : Str} {c : Char} {t : Str} (h : Y <+: X) (hy : Y = c :: t) :
    X.head? = some c := by
  rcases h with ⟨r, hr⟩
  rw [← hr, hy]
  rfl

theorem trimL_head_not_ws (l : Str) : (trimL l).head?.any isWsC = false := by
  cases hy : trimL l with
  | nil => rfl
  | cons c t =>
    have hpre : trimL l <+: l.dropWhile isWsC := by
      have hsuf : (l.dropWhile isWsC).reverse.dropWhile isWsC <:+ (l.dropWhile isWsC).reverse :=
        List.dropWhile_suffix _
      have hp := List.reverse_prefix.mpr hsuf
      rw [List.reverse_reverse] at hp
      exact hp
    have hhead := head_of_isPrefix hpre hy
    have := List.head?_dropWhile_not isWsC l
    rw [hhead] at this
    simp only [hy, List.head?]
    simp [this]

theorem trimL_getLast_not_ws (l : Str) : (trimL l).reverse.head?.any isWsC = false := by
  unfold trimL dropTrailWs
  rw [List.reverse_reverse]
  have := List.head?_dropWhile_not isWsC (l.dropWhile isWsC).reverse
  cases hh : ((l.dropWhile isWsC).reverse.dropWhile isWsC).head? with
  | none => simp [hh]
  | some c =>
    rw [hh] at this
    simp [hh, this]

theorem trimL_eq_self {X : Str} (h1 : X.head?.any isWsC = false)
    (h2 : X.reverse.head?.any isWsC = false) : trimL X = X := by
  have e1 : X.dropWhile isWsC = X := by
    cases X with
    | nil => rfl
    | cons c t =>
      have : isWsC c = false := by simpa using h1
      simp [List.dropWhile_cons, this]
  have e2 : X.reverse.dropWhile isWsC = X.reverse := by
    cases hr : X.reverse with
    | nil => simp
    | cons c t =>
      have : isWsC c = false := by
        rw [hr] at h2; simpa using h2
      simp [List.dropWhile_cons, this]
  unfold trimL dropTrailWs
  rw [e1, e2, List.reverse_reverse]

theorem trimL_idem (l : Str) : trimL (trimL l) = trimL l :=
  trimL_eq_self (trimL_head_not_ws l) (trimL_getLast_not_ws l)

theorem plain_not_mem {l : Str} (h : ∀ c ∈ l, plainChar c = true) {x : Char}
    (hx : plainChar x = false) : x ∉ l := by
  intro hm
  rw [h x hm] at hx
  exact Bool.noConfusion hx

theorem not_mem_collapse2_of {l : Str} (h : ∀ c ∈ l, plainChar c = true) {x : Char}
    (hx : plainChar x = false) (hxs : x ≠ ' ') : x ∉ collapse2 false l := by
  intro hm
  rcases mem_collapse2 false l x hm with h1 | h1
  · exact hxs h1
  · rw [h x h1] at hx
    exact Bool.noConfusion hx

theorem cleanMarkdown_plain (l : Str) (h : ∀ c ∈ l, plainChar c = true) :
    cleanMarkdown l = trimL (collapseAll false l) := by
  by_cases hl : l.isEmpty = true
  · have hnil : l = [] := by simpa using hl
    subst hnil
    rfl
  · have hstar : '*' ∉ l := plain_not_mem h (by decide)
    have hund : '_' ∉ l := plain_not_mem h (by decide)
    have hhash : '#' ∉ l := plain_not_mem h (by decide)
    have hbra : '[' ∉ l := plain_not_mem h (by decide)
    have htick : '`' ∉ l := plain_not_mem h (by decide)
    have hcolon : ':' ∉ collapse2 false l := not_mem_collapse2_of h (by decide) (by decide)
    have hamp : '&' ∉ collapse2 false l := not_mem_collapse2_of h (by decide) (by decide)
    have hdot : '.' ∉ collapse2 false l := not_mem_collapse2_of h (by decide) (by decide)
    simp only [cleanMarkdown]
    rw [if_neg hl]
    rw [replaceAll_of_not_mem ['*'] [] l hstar]
    rw [replaceAll_of_not_mem [] [] l hstar]
    rw [replaceAll_of_not_mem ['_'] [] l hund]
    rw [replaceAll_of_not_mem [] [] l hund]
    rw [stripHeadingsF_of_not_mem (some 6) l.length true l hhash]
    rw [stripLinksF_of_not_mem l.length l hbra]
    rw [replaceAll_of_not_mem [] [] l htick]
    rw [wsColonF_of_not_mem (collapse2 false l).length (collapse2 false l) hcolon]
    rw [colonWsF_of_not_mem (collapse2 false l).length (collapse2 false l) hcolon]
    rw [replaceAll_of_not_mem ['a', 'm', 'p', ';'] ['&'] (collapse2 false l) hamp]
    rw [replaceAll_of_not_mem ['l', 't', ';'] ['<'] (collapse2 false l) hamp]
    rw [replaceAll_of_not_mem ['g', 't', ';'] ['>'] (collapse2 false l) hamp]
    rw [replaceAll_of_not_mem ['q', 'u', 'o', 't', ';'] ['"'] (collapse2 false l) hamp]
    rw [fixNumF_of_not_mem (collapse2 false l).length (collapse2 false l) hdot]
    rw [collapseAll_collapse2 l false]

theorem cleanMarkdown_plain_closure (l : Str) (h : ∀ c ∈ l, plainChar c = true) :
    ∀ c ∈ cleanMarkdown l, plainChar c = true := by
  intro c hc
  rw [cleanMarkdown_plain l h] at hc
  rcases mem_collapseAll false l c (mem_trimL hc) with h1 | h1
  · rw [h1]; decide
  · exact h c h1

/-- The claim C2 as stated: refuted below at `"&amp;amp;"`.  Amended: the
sanitiser is idempotent on strings of letters, digits and spaces. -/
theorem sanitize_idem_plain (l : Str) (h : ∀ c ∈ l, plainChar c = true) :
    cleanMarkdown (cleanMarkdown l) = cleanMarkdown l := by
  have hout := cleanMarkdown_plain_closure l h
  rw [cleanMarkdown_plain _ hout]
  have hX := cleanMarkdown_plain l h
  have hch : List.Chain' noAdjWs (cleanMarkdown l) := by
    rw [hX]
    exact chain'_trimL (collapseAll_chain' false l)
  have hsp : ∀ c ∈ cleanMarkdown l, isWsC c = true → c = ' ' := by
    intro c hc hws
    rw [hX] at hc
    exact collapseAll_ws_eq_space false l c (mem_trimL hc) hws
  rw [(collapseAll_eq_self (cleanMarkdown l) hch hsp).1, hX, trimL_idem]

theorem jsOr_ne_nil (a b : Str) (hb : b ≠ []) : jsOr a b ≠ [] := by
  unfold jsOr
  split
  · exact hb
  · next h => intro hc; simp [hc] at h

/-! ## Claim theorems -/

/-- C1 (counterexample): the Article pipeline is not total — on a raw response
that is not JSON, the normalization of `_generateArticleForTopic` ends in a
thrown `ArticleGenerationError` (`Except.error`) instead of a structured value
with non-empty title/content/summary. -/
theorem C1_article_not_total :
    parseArticleData "not json at all".data =
      Except.error "Failed to parse article data".data := by
  rfl

/-- C1 (amended): the Recipe pipeline is total — for every input string the
parsed and assembled recipe has a non-empty title and non-empty ingredients
and instructions collections; the Article pipeline, by contrast, returns an
error on unparseable input (see the counterexample). -/
theorem C1_recipe_pipeline_total (s : Str) :
    (recipePipeline s).title ≠ [] ∧ (recipePipeline s).ingredients ≠ [] ∧
      (recipePipeline s).instructions ≠ [] := by
  unfold recipePipeline safeRecipe
  refine ⟨jsOr_ne_nil _ _ (by decide), ?_, ?_⟩
  · simp only
    split
    · next h =>
      simp only [ne_eq, List.map_eq_nil_iff]
      exact List.length_pos.mp (of_decide_eq_true h)
    · simp
  · simp only
    split
    · next h => exact List.length_pos.mp (of_decide_eq_true h)
    · simp

/-- C2 (counterexample): the markdown sanitiser is not idempotent as claimed —
entity decoding can create a fresh `&amp;` occurrence, so `"&amp;amp;"`
sanitises to `"&amp;"` while a second application yields `"&"`. -/
theorem C2_sanitize_not_idempotent :
    cleanMarkdown "&amp;amp;".data = "&amp;".data ∧
    cleanMarkdown (cleanMarkdown "&amp;amp;".data) = "&".data ∧
    cleanMarkdown (cleanMarkdown "&amp;amp;".data) ≠ cleanMarkdown "&amp;amp;".data :=
  ⟨by decide, by decide, by decide⟩

/-- C2 (amended): the sanitiser is idempotent on every string made of ASCII
letters, digits and spaces (on such strings it reduces to whitespace
collapsing and trimming, which are jointly idempotent). -/
theorem C2_sanitize_idempotent_plain (l : Str) (h : ∀ c ∈ l, plainChar c = true) :
    cleanMarkdown (cleanMarkdown l) = cleanMarkdown l :=
  sanitize_idem_plain l h

/-- C2 witness: the amended idempotence applied at a concrete plain string. -/
theorem C2_sanitize_idempotent_plain_witness :
    cleanMarkdown (cleanMarkdown "hello  world 42".data) =
      cleanMarkdown "hello  world 42".data :=
  C2_sanitize_idempotent_plain "hello  world 42".data (by decide)

/-- C3 (confirmed): whenever extraction yields an empty ingredients
collection, the assembled recipe's ingredients collection is exactly the
one-entry sentinel list, and the assembled ingredients collection is never
empty. -/
theorem C3_ingredients_sentinel :
    (∀ r : ParsedRecipe, r.ingredients = [] →
      (safeRecipe r).ingredients = [ingredientsSentinel]) ∧
    ∀ r : ParsedRecipe, (safeRecipe r).ingredients ≠ [] := by
  constructor
  · intro r hr
    unfold safeRecipe
    simp [hr]
  · intro r
    unfold safeRecipe
    simp only
    split
    · next h =>
      simp only [ne_eq, List.map_eq_nil_iff]
      exact List.length_pos.mp (of_decide_eq_true h)
    · simp

/-- C3 witness: the sentinel substitution at the empty extraction result. -/
theorem C3_ingredients_sentinel_witness :
    (safeRecipe ⟨[], [], [], none⟩).ingredients = [ingredientsSentinel] :=
  C3_ingredients_sentinel.1 ⟨[], [], [], none⟩ rfl

/-- C4 (confirmed): for an instruction block ending in
`"5. Serve warm. Cooking Time: 20 mins Servings: 4"`, the final processed
step's content is exactly `"Serve warm."` with the trailing metadata removed
(and its step number is 5). -/
theorem C4_metadata_trimming :
    processedInstructions
        ((extractInstructions
          "Instructions:\n1. Mix everything well.\n5. Serve warm. Cooking Time: 20 mins Servings: 4".data).map
          cleanMarkdown) =
      some [{ originalText := "1. Mix everything well.".data,
              content := "Mix everything well.".data, isHeader := false,
              hasLeadingNumber := true, stepNumber := some 1, isError := false },
            { originalText := "5. Serve warm.".data, content := "Serve warm.".data,
              isHeader := false, hasLeadingNumber := true, stepNumber := some 5,
              isError := false }] := by
  decide

/-- C5 (confirmed): explicit step numbers are passed through verbatim — the
block `"1. Mix.\n3. Bake."` yields steps with numbers 1 and 3, not 1 and 2. -/
theorem C5_step_number_passthrough :
    processedInstructions
        ((extractInstructions "Instructions:\n1. Mix.\n3. Bake.".data).map cleanMarkdown) =
      some [{ originalText := "1. Mix.".data, content := "Mix.".data, isHeader := false,
              hasLeadingNumber := true, stepNumber := some 1, isError := false },
            { originalText := "3. Bake.".data, content := "Bake.".data, isHeader := false,
              hasLeadingNumber := true, stepNumber := some 3, isError := false }] := by
  decide

/-- C6 (counterexample): on `"Macros: hello"` none of the four core nutrient
patterns matches anywhere in the text, yet `extractMacros` returns an all-zero
macros object rather than null, because the nutrition-section branch always
builds a record once a section header matched. -/
theorem C6_macros_counterexample :
    findLabeledNum ["calories".data, "energy".data] "Macros: hello".data = none ∧
    findLabeledNum ["protein".data] "Macros: hello".data = none ∧
    findLabeledNum ["carbs".data, "carbohydrates".data] "Macros: hello".data = none ∧
    findLabeledNum ["fat".data] "Macros: hello".data = none ∧
    extractMacros "Macros: hello".data =
      some { calories := 0, protein := 0, carbs := 0, fat := 0 } :=
  ⟨by decide, by decide, by decide, by decide, by decide⟩

/-- C6 (amended): restricted to texts with no (or an empty) nutrition-section
capture, `extractMacros` returns null exactly when none of the four core
patterns matches; and on the text `"Calories: 300"` it returns the record with
calories 300, zero protein/carbs/fat and no optional nutrient fields. -/
theorem C6_macros_fallback :
    (extractMacros "Calories: 300".data =
      some { calories := 300, protein := 0, carbs := 0, fat := 0 }) ∧
    ∀ t : Str, (nutritionCapture t).getD [] = [] →
      findLabeledNum ["calories".data, "energy".data] t = none →
      findLabeledNum ["protein".data] t = none →
      findLabeledNum ["carbs".data, "carbohydrates".data] t = none →
      findLabeledNum ["fat".data] t = none →
      extractMacros t = none := by
  refine ⟨by decide, ?_⟩
  intro t hcap hcal hpro hcar hfat
  unfold extractMacros
  cases hnc : nutritionCapture t with
  | none => simp [hcal, hpro, hcar, hfat]
  | some cap =>
    have hcape : cap = [] := by rw [hnc] at hcap; simpa using hcap
    subst hcape
    simp [hcal, hpro, hcar, hfat]

/-- C6 witness: the amended statement applied at concrete inputs. -/
theorem C6_macros_fallback_witness :
    extractMacros "hello".data = none :=
  C6_macros_fallback.2 "hello".data (by decide) (by decide) (by decide) (by decide)
    (by decide)

/-- C7 (counterexample): the claim fails as stated — in
`"Bar\nTitle: Foo"` the text contains a `Title: Foo` line and a different
first line `Bar`, but the label pattern requires a terminating line break, so
the extracted title is `"Bar"`, not `"Foo"`. -/
theorem C7_title_counterexample :
    extractTitle "Bar\nTitle: Foo".data = some "Bar".data ∧
    extractTitle "Bar\nTitle: Foo".data ≠ some "Foo".data :=
  ⟨by decide, by decide⟩

/-- C7 (amended): when the `Title:` line is newline-terminated the label match
outranks the first-line heuristic — for every continuation `rest`, the title
extracted from `"Bar\nTitle: Foo\n" ++ rest` is `"Foo"`. -/
theorem C7_title_label_priority (rest : Str) :
    extractTitle ("Bar\nTitle: Foo\n".data ++ rest) = some "Foo".data := rfl

/-- C8 (confirmed): a brace-delimited response parsing as JSON with a title
and ingredients/instructions is returned directly from the structured branch
— title `"T"`, ingredients `["a"]`, instructions `["b"]`, no macros; the
heuristic ingredient extractor would have returned the empty list on this
input, showing the heuristic path was not used. -/
theorem C8_structured_preferred :
    parseRecipeFromResponse jsonRecipeInput =
      { title := "T".data, ingredients := ["a".data], instructions := ["b".data],
        macros := none } ∧
    extractIngredients jsonRecipeInput = [] :=
  ⟨by decide, by decide⟩

/-- C9 (confirmed): an entirely empty instruction block yields an empty
sequence (both with no instructions section and with an empty one), and a
processed-instruction entry carries `isError = true` only when the first
instruction contains one of the explicit "not detected" sentinel phrases. -/
theorem C9_error_sentinel_only :
    extractInstructions [] = [] ∧
    extractInstructions "Instructions:\n".data = [] ∧
    ∀ (instrs : List Str) (l : List ProcInstr) (e : ProcInstr),
      processedInstructions instrs = some l → e ∈ l → e.isError = true →
      ((decide (instrs.length = 1) && includesL (instrs.headD []) notDetectedPhrase) ||
        includesL (instrs.headD []) noInstructionsPhrase) = true := by
  refine ⟨by decide, by decide, ?_⟩
  intro instrs l e hp he herr
  cases instrs with
  | nil => exact absurd hp (by simp [processedInstructions])
  | cons i0 rest =>
    rw [processedInstructions] at hp
    split at hp
    · next hcond => simpa using hcond
    · next hcond =>
      have hl : l = ((i0 :: rest).filter (fun i => !(metadataOnlyLine (trimL i)))).map procOne :=
        (Option.some.inj hp).symm
      rw [hl] at he
      obtain ⟨x, _, hxe⟩ := List.mem_map.mp he
      rw [← hxe] at herr
      exact absurd herr (by simp [procOne])

/-- C9 witness: an error-sentinel entry arises from the explicit sentinel
phrase. -/
theorem C9_error_sentinel_only_witness :
    ((decide (([noInstructionsPhrase] : List Str).length = 1) &&
        includesL (([noInstructionsPhrase] : List Str).headD []) notDetectedPhrase) ||
      includesL (([noInstructionsPhrase] : List Str).headD []) noInstructionsPhrase) = true :=
  C9_error_sentinel_only.2.2 [noInstructionsPhrase]
    [{ originalText := noInstructionsPhrase, content := noInstructionsPhrase,
       isHeader := false, hasLeadingNumber := false, stepNumber := none, isError := true }]
    { originalText := noInstructionsPhrase, content := noInstructionsPhrase,
      isHeader := false, hasLeadingNumber := false, stepNumber := none, isError := true }
    (by decide) (by decide) rfl

/-- C10 (confirmed): the last-resort instruction extractor returns at most ten
entries, and every returned entry is a trimmed paragraph strictly longer than
20 and strictly shorter than 500 characters. -/
theorem C10_fallback_bounds (s : Str) (p : Str)
    (hp : p ∈ extractFallbackInstructions s) :
    (extractFallbackInstructions s).length ≤ 10 ∧ trimL p = p ∧
      20 < p.length ∧ p.length < 500 := by
  unfold extractFallbackInstructions at hp ⊢
  refine ⟨List.length_take_le _ _, ?_, ?_, ?_⟩
  all_goals
    have h1 := List.mem_of_mem_take hp
    have h2 := List.mem_filter.mp h1
  · obtain ⟨x, _, hxe⟩ := List.mem_map.mp h2.1
    rw [← hxe]
    exact trimL_idem x
  · have := h2.2
    simp only [Bool.and_eq_true, decide_eq_true_eq] at this
    exact this.1
  · have := h2.2
    simp only [Bool.and_eq_true, decide_eq_true_eq] at this
    exact this.2

/-- C10 witness: the bounds at a concrete input with one qualifying
paragraph. -/
theorem C10_fallback_bounds_witness :
    (extractFallbackInstructions "this paragraph is long enough to count".data).length ≤ 10 ∧
      trimL "this paragraph is long enough to count".data =
        "this paragraph is long enough to count".data ∧
      20 < "this paragraph is long enough to count".data.length ∧
      "this paragraph is long enough to count".data.length < 500 :=
  C10_fallback_bounds "this paragraph is long enough to count".data
    "this paragraph is long enough to count".data (by decide)
